import Mathlib

/-!
Verification of the financial metrics engine of this repository
(`src/app.py`): the functions `calcular_vpl` (net present value),
`calcular_tir` (internal rate of return, Newton iteration with a
bisection fallback) and `calcular_payback_descontado` (discounted
payback period), embedded shallowly over `ℚ`.

Python's `/` raises `ZeroDivisionError` when the divisor is zero; we
model each division with `pyDiv`, which returns `none` in that case,
and the engine functions return `Except Unit _`, where `.error ()`
models an uncaught exception escaping the function.
-/

/-- Python division `a / b`: raises (`none`) exactly when `b = 0`. -/
def pyDiv (a b : ℚ) : Option ℚ :=
  if b = 0 then none else some (a / b)

/-- Python's `sum` over a list of terms, each of which may have raised:
the whole sum raises if any term raised. -/
def optSum : List (Option ℚ) → Option ℚ
  | [] => some 0
  | none :: _ => none
  | some x :: rest => (optSum rest).map (fun s => x + s)

/-- The list `[fc / (1 + tma) ** t for t, fc in enumerate(fluxos)]`,
with the enumeration starting at index `t`. -/
def vplTerms (tma : ℚ) : Nat → List ℚ → List (Option ℚ)
  | _, [] => []
  | t, fc :: rest => pyDiv fc ((1 + tma) ^ t) :: vplTerms tma (t + 1) rest

/-- `calcular_vpl(fluxos_completos, tma)` from `src/app.py` (the inner
`vpl` helper of `calcular_tir` is the same formula):
`sum([fc / (1 + tma) ** t for t, fc in enumerate(fluxos_completos)])`. -/
def calcular_vpl (fluxos : List ℚ) (tma : ℚ) : Option ℚ :=
  optSum (vplTerms tma 0 fluxos)

/-- The list of derivative terms
`[-t * f / (1 + taxa) ** (t + 1) for t, f in enumerate(fluxos) if t > 0]`,
with the enumeration starting at index `t`. -/
def derivTerms (taxa : ℚ) : Nat → List ℚ → List (Option ℚ)
  | _, [] => []
  | t, f :: rest =>
    if 0 < t then
      pyDiv (-(t : ℚ) * f) ((1 + taxa) ^ (t + 1)) :: derivTerms taxa (t + 1) rest
    else
      derivTerms taxa (t + 1) rest

/-- `vpl_derivada(taxa)` from `calcular_tir` in `src/app.py`. -/
def vpl_derivada (fluxos : List ℚ) (taxa : ℚ) : Option ℚ :=
  optSum (derivTerms taxa 0 fluxos)

/-- Default iteration budget of `calcular_tir` (`max_iter=1000`). -/
def max_iter : Nat := 1000

/-- Default tolerance of `calcular_tir` (`tolerancia=1e-6`). -/
def tolerancia : ℚ := 1 / 1000000

/-- The sign list `[1 if f >= 0 else -1 for f in fluxos]`. -/
def sinais (fluxos : List ℚ) : List ℤ :=
  fluxos.map (fun f => if 0 ≤ f then 1 else -1)

/-- The feasibility guard of `calcular_tir`:
`sum(sinais) == len(fluxos) or sum(sinais) == -len(fluxos)`. -/
def mesmoSinal (fluxos : List ℚ) : Prop :=
  (sinais fluxos).sum = (fluxos.length : ℤ) ∨
    (sinais fluxos).sum = -(fluxos.length : ℤ)

instance (fluxos : List ℚ) : Decidable (mesmoSinal fluxos) := by
  unfold mesmoSinal; infer_instance

/-- The Newton phase of `calcular_tir`, fuelled by the remaining
iteration count.  `Except.ok (some r)` models `return taxa * 100`,
`Except.ok none` models falling through to the bisection phase (loop
exhausted or `break` on a flat derivative), `Except.error ()` models an
uncaught `ZeroDivisionError` inside `vpl`/`vpl_derivada`. -/
def newtonLoop (fluxos : List ℚ) (tol : ℚ) : Nat → ℚ → Except Unit (Option ℚ)
  | 0, _ => Except.ok none
  | n + 1, taxa =>
    match calcular_vpl fluxos taxa with
    | none => Except.error ()
    | some v =>
      if |v| < tol then Except.ok (some (taxa * 100))
      else
        match vpl_derivada fluxos taxa with
        | none => Except.error ()
        | some derivada =>
          if |derivada| < 1 / 10 ^ 10 then Except.ok none
          else newtonLoop fluxos tol n (taxa - v / derivada)

/-- The bisection phase of `calcular_tir`, fuelled by the remaining
iteration count; returns the final bracket `(esquerda, direita)`. -/
def bisecao (fluxos : List ℚ) (tol : ℚ) : Nat → ℚ → ℚ → Except Unit (ℚ × ℚ)
  | 0, esquerda, direita => Except.ok (esquerda, direita)
  | n + 1, esquerda, direita =>
    if direita - esquerda < tol then Except.ok (esquerda, direita)
    else
      let meio := (esquerda + direita) / 2
      match calcular_vpl fluxos esquerda, calcular_vpl fluxos meio with
      | some ve, some vm =>
        if ve * vm < 0 then bisecao fluxos tol n esquerda meio
        else bisecao fluxos tol n meio direita
      | _, _ => Except.error ()

/-- `calcular_tir(fluxos, max_iter=1000, tolerancia=1e-6)` from
`src/app.py`, at its default parameters.  `Except.ok none` models the
Python `None` result ("undefined" sentinel), `Except.ok (some r)` a
numeric return, `Except.error ()` an uncaught exception. -/
def calcular_tir (fluxos : List ℚ) : Except Unit (Option ℚ) :=
  if mesmoSinal fluxos then Except.ok none
  else
    match newtonLoop fluxos tolerancia max_iter (1 / 10) with
    | Except.error e => Except.error e
    | Except.ok (some r) => Except.ok (some r)
    | Except.ok none =>
      match bisecao fluxos tolerancia max_iter (-(99 / 100)) 1 with
      | Except.error e => Except.error e
      | Except.ok (esquerda, direita) =>
        match calcular_vpl fluxos ((esquerda + direita) / 2) with
        | none => Except.error ()
        | some v =>
          if |v| < tolerancia then
            Except.ok (some ((esquerda + direita) / 2 * 100))
          else Except.ok none

/-- The loop of `calcular_payback_descontado`, carrying the current
index `t` and the running discounted cumulative sum `acumulado`. -/
def paybackLoop (tma : ℚ) : Nat → ℚ → List ℚ → Except Unit (Option ℚ)
  | _, _, [] => Except.ok none
  | t, acumulado, fc :: rest =>
    match pyDiv fc ((1 + tma) ^ t) with
    | none => Except.error ()
    | some fluxo_desc =>
      let acumulado' := acumulado + fluxo_desc
      if 0 ≤ acumulado' then
        if t = 0 then Except.ok (some 0)
        else
          match pyDiv |acumulado' - fluxo_desc| fluxo_desc with
          | none => Except.error ()
          | some frac => Except.ok (some ((t : ℚ) - 1 + frac))
      else paybackLoop tma (t + 1) acumulado' rest

/-- `calcular_payback_descontado(fluxos_completos, tma)` from
`src/app.py`. -/
def calcular_payback_descontado (fluxos : List ℚ) (tma : ℚ) : Except Unit (Option ℚ) :=
  paybackLoop tma 0 0 fluxos

/-- The spec's NPV formula (§4.1, "sum over index t = 0..n of
`flows[t] / (1+rate)^t`"), as a total sum starting at index `t`; used
to compare `calcular_vpl` against the specification's words. -/
def npvFrom (rate : ℚ) : Nat → List ℚ → ℚ
  | _, [] => 0
  | t, fc :: rest => fc / (1 + rate) ^ t + npvFrom rate (t + 1) rest

/-- The spec's NPV: sum over index t = 0..n of `flows[t] / (1+rate)^t`. -/
def npvSpec (fluxos : List ℚ) (rate : ℚ) : ℚ :=
  npvFrom rate 0 fluxos

/-- Checks that an IRR outcome is a numeric value within `eps` of
`alvo`. -/
def tirNear (x : Except Unit (Option ℚ)) (alvo eps : ℚ) : Bool :=
  match x with
  | Except.ok (some r) => decide (|r - alvo| < eps)
  | _ => false

set_option allowUnsafeReducibility true

attribute [local semireducible] Rat.add Rat.mul Rat.inv Rat.sub

set_option maxRecDepth 8000

/-! General lemmas about the NPV sum. -/

theorem optSum_vplTerms (tma : ℚ) (h : 1 + tma ≠ 0) (fluxos : List ℚ) :
    ∀ t : Nat, optSum (vplTerms tma t fluxos) = some (npvFrom tma t fluxos) := by
  induction fluxos with
  | nil => intro t; rfl
  | cons fc rest ih =>
    intro t
    have hpow : (1 + tma) ^ t ≠ 0 := pow_ne_zero _ h
    simp only [vplTerms, npvFrom, pyDiv, if_neg hpow, optSum, ih (t + 1), Option.map_some']

theorem calcular_vpl_eq_npvSpec (fluxos : List ℚ) (tma : ℚ) (h : -1 < tma) :
    calcular_vpl fluxos tma = some (npvSpec fluxos tma) :=
  optSum_vplTerms tma (by linarith) fluxos 0

theorem npvFrom_shift (rate : ℚ) (fluxos : List ℚ) :
    ∀ t : Nat, npvFrom rate t fluxos = npvFrom rate 0 fluxos / (1 + rate) ^ t := by
  induction fluxos with
  | nil => intro t; simp [npvFrom]
  | cons fc rest ih =>
    intro t
    simp only [npvFrom, ih (t + 1), ih 1]
    rw [pow_zero, div_one, pow_one, add_div, div_div, ← pow_succ']

theorem npvSpec_cons (fc : ℚ) (rest : List ℚ) (rate : ℚ) :
    npvSpec (fc :: rest) rate = fc + npvSpec rest rate / (1 + rate) := by
  simp only [npvSpec, npvFrom, pow_zero, div_one, npvFrom_shift rate rest 1, pow_one]

theorem npvSpec_nonneg (rate : ℚ) (hr : -1 < rate) (l : List ℚ) :
    (∀ f ∈ l, 0 < f) → 0 ≤ npvSpec l rate := by
  induction l with
  | nil => intro _; simp [npvSpec, npvFrom]
  | cons fc rest ih =>
    intro h
    have hfc : 0 < fc := h fc (by simp)
    have hrest : 0 ≤ npvSpec rest rate := ih (fun f hf => h f (by simp [hf]))
    have h1 : (0 : ℚ) < 1 + rate := by linarith
    rw [npvSpec_cons]
    have := div_nonneg hrest h1.le
    linarith

theorem npvSpec_pos (rate : ℚ) (hr : -1 < rate) (l : List ℚ) (hne : l ≠ [])
    (h : ∀ f ∈ l, 0 < f) : 0 < npvSpec l rate := by
  cases l with
  | nil => exact absurd rfl hne
  | cons fc rest =>
    have hfc : 0 < fc := h fc (by simp)
    have hrest : 0 ≤ npvSpec rest rate := npvSpec_nonneg rate hr rest (fun f hf => h f (by simp [hf]))
    have h1 : (0 : ℚ) < 1 + rate := by linarith
    rw [npvSpec_cons]
    have := div_nonneg hrest h1.le
    linarith

theorem npvSpec_anti (r1 r2 : ℚ) (h1 : -1 < r1) (h12 : r1 ≤ r2) (l : List ℚ) :
    (∀ f ∈ l, 0 < f) → npvSpec l r2 ≤ npvSpec l r1 := by
  induction l with
  | nil => intro _; simp [npvSpec, npvFrom]
  | cons fc rest ih =>
    intro h
    have hrest : npvSpec rest r2 ≤ npvSpec rest r1 := ih (fun f hf => h f (by simp [hf]))
    have hn1 : 0 ≤ npvSpec rest r1 :=
      npvSpec_nonneg r1 h1 rest (fun f hf => h f (by simp [hf]))
    have ha : (0 : ℚ) < 1 + r1 := by linarith
    have hb : 1 + r1 ≤ 1 + r2 := by linarith
    rw [npvSpec_cons, npvSpec_cons]
    have key : npvSpec rest r2 / (1 + r2) ≤ npvSpec rest r1 / (1 + r1) :=
      div_le_div₀ hn1 hrest ha hb
    linarith

/-! Lemmas about the sign guard of `calcular_tir`. -/

theorem sinais_sum_of_nonneg (fluxos : List ℚ) :
    (∀ f ∈ fluxos, 0 ≤ f) → (sinais fluxos).sum = (fluxos.length : ℤ) := by
  induction fluxos with
  | nil => intro _; rfl
  | cons fc rest ih =>
    intro h
    have hfc : (0 : ℚ) ≤ fc := h fc (by simp)
    have hrest := ih (fun f hf => h f (by simp [hf]))
    simp only [sinais] at hrest ⊢
    simp only [List.map_cons, List.sum_cons, if_pos hfc, List.length_cons, hrest]
    push_cast
    ring

theorem sinais_sum_of_neg (fluxos : List ℚ) :
    (∀ f ∈ fluxos, f < 0) → (sinais fluxos).sum = -(fluxos.length : ℤ) := by
  induction fluxos with
  | nil => intro _; rfl
  | cons fc rest ih =>
    intro h
    have hfc : ¬ (0 : ℚ) ≤ fc := not_le.mpr (h fc (by simp))
    have hrest := ih (fun f hf => h f (by simp [hf]))
    simp only [sinais] at hrest ⊢
    simp only [List.map_cons, List.sum_cons, if_neg hfc, List.length_cons, hrest]
    push_cast
    ring

/-! Lemmas about the discounted-payback loop. -/

theorem paybackLoop_ne_error (tma : ℚ) (h : -1 < tma) (rest : List ℚ) :
    ∀ (t : Nat) (acum : ℚ), ((t = 0 ∧ acum = 0) ∨ acum < 0) →
      paybackLoop tma t acum rest ≠ Except.error () := by
  induction rest with
  | nil => intro t acum _; simp [paybackLoop]
  | cons fc rest ih =>
    intro t acum hinv
    have hpow : (1 + tma) ^ t ≠ 0 := pow_ne_zero _ (by linarith)
    simp only [paybackLoop, pyDiv, if_neg hpow]
    by_cases h0 : 0 ≤ acum + fc / (1 + tma) ^ t
    · rw [if_pos h0]
      by_cases ht : t = 0
      · rw [if_pos ht]; simp
      · rw [if_neg ht]
        have hacum : acum < 0 := by
          rcases hinv with ⟨h1, _⟩ | h2
          · exact absurd h1 ht
          · exact h2
        have hfdpos : 0 < fc / (1 + tma) ^ t := by linarith
        rw [if_neg (ne_of_gt hfdpos)]
        simp
    · rw [if_neg h0]
      exact ih (t + 1) _ (Or.inr (lt_of_not_ge h0))

theorem paybackLoop_bounds (tma : ℚ) (rest : List ℚ) :
    ∀ (t : Nat) (acum r : ℚ), ((t = 0 ∧ acum = 0) ∨ acum < 0) →
      paybackLoop tma t acum rest = Except.ok (some r) →
      0 ≤ r ∧ r ≤ (t : ℚ) + rest.length - 1 := by
  induction rest with
  | nil => intro t acum r _ h; simp [paybackLoop] at h
  | cons fc rest ih =>
    intro t acum r hinv h
    by_cases hpow : (1 + tma) ^ t = 0
    · simp only [paybackLoop, pyDiv, if_pos hpow] at h
      exact absurd h (by simp)
    · simp only [paybackLoop, pyDiv, if_neg hpow] at h
      by_cases h0 : 0 ≤ acum + fc / (1 + tma) ^ t
      · rw [if_pos h0] at h
        by_cases ht : t = 0
        · rw [if_pos ht] at h
          have hr : r = 0 := by
            have := h
            simp only [Except.ok.injEq, Option.some.injEq] at this
            exact this.symm
          subst hr
          subst ht
          constructor
          · exact le_refl 0
          · simp only [List.length_cons, Nat.cast_zero]
            push_cast
            linarith [Nat.cast_nonneg (α := ℚ) rest.length]
        · rw [if_neg ht] at h
          have hacum : acum < 0 := by
            rcases hinv with ⟨h1, _⟩ | h2
            · exact absurd h1 ht
            · exact h2
          have hfdpos : 0 < fc / (1 + tma) ^ t := by linarith
          rw [if_neg (ne_of_gt hfdpos)] at h
          have hr : (t : ℚ) - 1 + |acum + fc / (1 + tma) ^ t - fc / (1 + tma) ^ t| / (fc / (1 + tma) ^ t) = r := by
            simpa only [Except.ok.injEq, Option.some.injEq] using h
          have habs : acum + fc / (1 + tma) ^ t - fc / (1 + tma) ^ t = acum := by ring
          rw [habs, abs_of_neg hacum] at hr
          have hfrac_pos : 0 < -acum / (fc / (1 + tma) ^ t) :=
            div_pos (by linarith) hfdpos
          have hfrac_le : -acum / (fc / (1 + tma) ^ t) ≤ 1 :=
            (div_le_one hfdpos).mpr (by linarith)
          have ht1 : (1 : ℚ) ≤ (t : ℚ) := by
            have : 1 ≤ t := Nat.one_le_iff_ne_zero.mpr ht
            exact_mod_cast this
          constructor
          · linarith [hr.symm]
          · rw [← hr]
            simp only [List.length_cons]
            push_cast
            linarith [Nat.cast_nonneg (α := ℚ) rest.length]
      · rw [if_neg h0] at h
        have := ih (t + 1) _ r (Or.inr (lt_of_not_ge h0)) h
        constructor
        · exact this.1
        · have h2 := this.2
          simp only [List.length_cons]
          push_cast at h2 ⊢
          linarith

/-! The claims. -/

/-- C1: for every cash-flow series and every rate > -1, `calcular_vpl`
returns (without raising) the spec's sum over t of `flows[t]/(1+rate)^t`;
in particular `npv([-100, 60, 60, 60], 0.10)` equals
`60/1.1 + 60/1.21 + 60/1.331 - 100`, which is within 0.01 of 49.21. -/
theorem spec_c1 :
    (∀ (fluxos : List ℚ) (rate : ℚ), -1 < rate →
      calcular_vpl fluxos rate = some (npvSpec fluxos rate)) ∧
    calcular_vpl [-100, 60, 60, 60] (1 / 10) =
      some (60 / (11 / 10) + 60 / (121 / 100) + 60 / (1331 / 1000) - 100) ∧
    |(60 / (11 / 10) + 60 / (121 / 100) + 60 / (1331 / 1000) - 100 : ℚ) - 4921 / 100| <
      1 / 100 :=
  ⟨fun fluxos rate h => calcular_vpl_eq_npvSpec fluxos rate h, by decide, by decide⟩

/-- Witness for C1 at `fluxos = [-100, 60, 60, 60]`, `rate = 1/10`. -/
theorem spec_c1_witness :
    calcular_vpl [-100, 60, 60, 60] (1 / 10) = some (npvSpec [-100, 60, 60, 60] (1 / 10)) :=
  spec_c1.1 [-100, 60, 60, 60] (1 / 10) (by norm_num)

/-- C3 counterexample: `[0, -1/200]` has every entry non-positive, yet
`calcular_tir` does not return the undefined sentinel: the sign guard
maps 0 to +1, the guard fails, and the Newton phase converges to the
spurious rate 901020 (in percent). -/
theorem spec_c3_cex :
    (∀ f ∈ ([0, -(1 / 200)] : List ℚ), f ≤ 0) ∧
    calcular_tir [0, -(1 / 200)] = Except.ok (some 901020) :=
  ⟨by decide, by rfl⟩

/-- C3 amended: if every entry is non-negative, or every entry is
strictly negative, the sign guard of `calcular_tir` holds and the
function returns the undefined sentinel immediately. -/
theorem spec_c3 (fluxos : List ℚ)
    (h : (∀ f ∈ fluxos, 0 ≤ f) ∨ (∀ f ∈ fluxos, f < 0)) :
    mesmoSinal fluxos ∧ calcular_tir fluxos = Except.ok none := by
  have hms : mesmoSinal fluxos := by
    rcases h with h | h
    · exact Or.inl (sinais_sum_of_nonneg fluxos h)
    · exact Or.inr (sinais_sum_of_neg fluxos h)
  refine ⟨hms, ?_⟩
  unfold calcular_tir
  rw [if_pos hms]

/-- Witness for C3 at `fluxos = [100, 50, 60]`. -/
theorem spec_c3_witness :
    mesmoSinal [100, 50, 60] ∧ calcular_tir [100, 50, 60] = Except.ok none :=
  spec_c3 [100, 50, 60] (Or.inl (by decide))

/-- C4 counterexample: on the singleton series `[5]` the call
`npv([5], -1)` does not fail: term 0 divides by `(1 + -1) ** 0 = 1`
and the function returns 5. -/
theorem spec_c4_cex : calcular_vpl [5] (-1) = some 5 := by decide

/-- C4 amended: `calcular_vpl` at rate exactly -1 raises a division by
zero (modelled `none`) for every series with at least two entries,
while a series with fewer entries returns a value even at -1; and every
rate > -1 is accepted and produces a (finite, rational) value. -/
theorem spec_c4 :
    (∀ fluxos : List ℚ, 2 ≤ fluxos.length → calcular_vpl fluxos (-1) = none) ∧
    (∀ (fluxos : List ℚ) (rate : ℚ), -1 < rate → ∃ v, calcular_vpl fluxos rate = some v) := by
  constructor
  · intro fluxos hlen
    match fluxos with
    | [] => simp at hlen
    | [a] => simp at hlen
    | a :: b :: rest => norm_num [calcular_vpl, vplTerms, pyDiv, optSum]
  · intro fluxos rate h
    exact ⟨npvSpec fluxos rate, calcular_vpl_eq_npvSpec fluxos rate h⟩

/-- Witness for C4 at `fluxos = [1, 2]` and at `rate = 1/10`. -/
theorem spec_c4_witness :
    calcular_vpl [1, 2] (-1) = none ∧ ∃ v, calcular_vpl [1, 2] (1 / 10) = some v :=
  ⟨spec_c4.1 [1, 2] (by decide), spec_c4.2 [1, 2] (1 / 10) (by norm_num)⟩

/-- C5 counterexample: `discounted_payback([-100, 60, 60, 60], 0.10)`
is exactly 23/12 = 1.9166..., which is not within 0.01 of the claimed
1.95; and the discounted flow of period 3 is `60/1.1^3` = 45.07...,
not the claimed 37.57. -/
theorem spec_c5_cex :
    calcular_payback_descontado [-100, 60, 60, 60] (1 / 10) = Except.ok (some (23 / 12)) ∧
    ¬ |(23 / 12 : ℚ) - 195 / 100| < 1 / 100 ∧
    ¬ |(60 : ℚ) / (1 + 1 / 10) ^ 3 - 3757 / 100| < 1 :=
  ⟨by rfl, by decide, by decide⟩

/-- C5 amended: `discounted_payback([-100, 60, 60, 60], 0.10)` returns
exactly 23/12, which is `(2 - 1) + |cumulative before period 2| /
(discounted flow of period 2)` and is within 0.01 of 1.92 (not 1.95). -/
theorem spec_c5 :
    calcular_payback_descontado [-100, 60, 60, 60] (1 / 10) = Except.ok (some (23 / 12)) ∧
    (23 / 12 : ℚ) = 2 - 1 + |(-100 : ℚ) + 60 / (1 + 1 / 10)| / (60 / (1 + 1 / 10) ^ 2) ∧
    |(23 / 12 : ℚ) - 192 / 100| < 1 / 100 :=
  ⟨by rfl, by decide, by decide⟩

/-- C8: for a series with a negative initial flow followed by a
nonempty all-positive tail, NPV is strictly decreasing in the rate on
rates > -1. -/
theorem spec_c8 (f0 : ℚ) (tail : List ℚ) (r1 r2 : ℚ) (hf0 : f0 < 0) (hne : tail ≠ [])
    (hpos : ∀ f ∈ tail, 0 < f) (h1 : -1 < r1) (h12 : r1 < r2) :
    ∃ v1 v2, calcular_vpl (f0 :: tail) r1 = some v1 ∧
      calcular_vpl (f0 :: tail) r2 = some v2 ∧ v2 < v1 := by
  have h2 : (-1 : ℚ) < r2 := by linarith
  refine ⟨npvSpec (f0 :: tail) r1, npvSpec (f0 :: tail) r2,
    calcular_vpl_eq_npvSpec _ _ h1, calcular_vpl_eq_npvSpec _ _ h2, ?_⟩
  rw [npvSpec_cons, npvSpec_cons]
  have hT2pos : 0 < npvSpec tail r2 := npvSpec_pos r2 h2 tail hne hpos
  have hT21 : npvSpec tail r2 ≤ npvSpec tail r1 := npvSpec_anti r1 r2 h1 h12.le tail hpos
  have ha : (0 : ℚ) < 1 + r1 := by linarith
  have hb : (1 : ℚ) + r1 < 1 + r2 := by linarith
  have key1 : npvSpec tail r2 / (1 + r2) < npvSpec tail r2 / (1 + r1) :=
    div_lt_div_of_pos_left hT2pos ha hb
  have key2 : npvSpec tail r2 / (1 + r1) ≤ npvSpec tail r1 / (1 + r1) :=
    (div_le_div_iff_of_pos_right ha).mpr hT21
  linarith

/-- Witness for C8 at `[-100, 60, 60, 60]`, rates 1/10 < 1/5. -/
theorem spec_c8_witness :
    ∃ v1 v2, calcular_vpl [-100, 60, 60, 60] (1 / 10) = some v1 ∧
      calcular_vpl [-100, 60, 60, 60] (1 / 5) = some v2 ∧ v2 < v1 :=
  spec_c8 (-100) [60, 60, 60] (1 / 10) (1 / 5) (by norm_num) (by decide) (by decide)
    (by norm_num) (by norm_num)

/-- C9: for every series and rate > -1, `calcular_payback_descontado`
never raises: in particular the interpolation division is only reached
with a strictly positive discounted flow. -/
theorem spec_c9 (fluxos : List ℚ) (tma : ℚ) (h : -1 < tma) :
    calcular_payback_descontado fluxos tma ≠ Except.error () :=
  paybackLoop_ne_error tma h fluxos 0 0 (Or.inl ⟨rfl, rfl⟩)

/-- Witness for C9 at `[-100, 60, 60, 60]`, rate 1/10. -/
theorem spec_c9_witness :
    calcular_payback_descontado [-100, 60, 60, 60] (1 / 10) ≠ Except.error () :=
  spec_c9 [-100, 60, 60, 60] (1 / 10) (by norm_num)

/-- C10: for every series of length n+1 and every rate > -1, a numeric
discounted-payback result lies in [0, n]; and it is exactly 0 whenever
the cumulative sum is already non-negative at index 0. -/
theorem spec_c10 (fluxos : List ℚ) (tma : ℚ) (h : -1 < tma) :
    (∀ r : ℚ, calcular_payback_descontado fluxos tma = Except.ok (some r) →
      0 ≤ r ∧ r ≤ (fluxos.length : ℚ) - 1) ∧
    (∀ (f0 : ℚ) (rest : List ℚ), fluxos = f0 :: rest → 0 ≤ f0 →
      calcular_payback_descontado fluxos tma = Except.ok (some 0)) := by
  constructor
  · intro r hr
    have hb := paybackLoop_bounds tma fluxos 0 0 r (Or.inl ⟨rfl, rfl⟩) hr
    refine ⟨hb.1, ?_⟩
    have h2 := hb.2
    push_cast at h2 ⊢
    linarith
  · intro f0 rest hfl hf0
    subst hfl
    simp [calcular_payback_descontado, paybackLoop, pyDiv, div_one, hf0]

/-- Witness for C10 at `[-100, 60, 60, 60]`, rate 1/10, result 23/12. -/
theorem spec_c10_witness :
    0 ≤ (23 / 12 : ℚ) ∧
      (23 / 12 : ℚ) ≤ ((([-100, 60, 60, 60] : List ℚ).length : ℚ) - 1) :=
  (spec_c10 [-100, 60, 60, 60] (1 / 10) (by norm_num)).1 (23 / 12) (by rfl)

/-! The Newton phase only returns a numeric value after the tolerance
check on the NPV at the returned rate succeeded. -/

theorem newtonLoop_ok_some (fluxos : List ℚ) (tol : ℚ) :
    ∀ (n : Nat) (taxa r : ℚ), newtonLoop fluxos tol n taxa = Except.ok (some r) →
      ∃ v, calcular_vpl fluxos (r / 100) = some v ∧ |v| < tol := by
  intro n
  induction n with
  | zero =>
    intro taxa r h
    simp only [newtonLoop] at h
    injection h with h2
    exact Option.noConfusion h2
  | succ n ih =>
    intro taxa r h
    cases hv : calcular_vpl fluxos taxa with
    | none =>
      simp only [newtonLoop, hv] at h
      exact Except.noConfusion h
    | some v =>
      simp only [newtonLoop, hv] at h
      by_cases htol : |v| < tol
      · rw [if_pos htol] at h
        injection h with h2
        injection h2 with h3
        refine ⟨v, ?_, htol⟩
        rw [← h3, mul_div_cancel_right₀ taxa (by norm_num : (100 : ℚ) ≠ 0)]
        exact hv
      · rw [if_neg htol] at h
        cases hd : vpl_derivada fluxos taxa with
        | none =>
          simp only [hd] at h
          exact Except.noConfusion h
        | some d =>
          simp only [hd] at h
          by_cases hflat : |d| < 1 / 10 ^ 10
          · rw [if_pos hflat] at h
            injection h with h2
            exact Option.noConfusion h2
          · rw [if_neg hflat] at h
            exact ih _ r h

/-- C2: whenever `calcular_tir` returns a numeric value `r` (rather
than the undefined sentinel or an exception), the NPV at the rate
`r/100` is defined and smaller than the tolerance in absolute value. -/
theorem spec_c2 (fluxos : List ℚ) (r : ℚ)
    (h : calcular_tir fluxos = Except.ok (some r)) :
    ∃ v, calcular_vpl fluxos (r / 100) = some v ∧ |v| < tolerancia := by
  unfold calcular_tir at h
  by_cases hms : mesmoSinal fluxos
  · rw [if_pos hms] at h
    injection h with h2
    exact Option.noConfusion h2
  · rw [if_neg hms] at h
    cases hn : newtonLoop fluxos tolerancia max_iter (1 / 10) with
    | error e =>
      simp only [hn] at h
      exact Except.noConfusion h
    | ok o =>
      cases o with
      | some r2 =>
        simp only [hn] at h
        injection h with h2
        injection h2 with h3
        exact newtonLoop_ok_some fluxos tolerancia max_iter (1 / 10) r (h3 ▸ hn)
      | none =>
        simp only [hn] at h
        cases hb : bisecao fluxos tolerancia max_iter (-(99 / 100)) 1 with
        | error e =>
          simp only [hb] at h
          exact Except.noConfusion h
        | ok p =>
          obtain ⟨esq, dir⟩ := p
          simp only [hb] at h
          cases hv : calcular_vpl fluxos ((esq + dir) / 2) with
          | none =>
            simp only [hv] at h
            exact Except.noConfusion h
          | some v =>
            simp only [hv] at h
            by_cases htol : |v| < tolerancia
            · rw [if_pos htol] at h
              injection h with h2
              injection h2 with h3
              refine ⟨v, ?_, htol⟩
              rw [← h3, mul_div_cancel_right₀ _ (by norm_num : (100 : ℚ) ≠ 0)]
              exact hv
            · rw [if_neg htol] at h
              injection h with h2
              exact Option.noConfusion h2

/-- Witness for C2 at `fluxos = [0, -1/200]`, where `calcular_tir`
returns 901020. -/
theorem spec_c2_witness :
    ∃ v, calcular_vpl [0, -(1 / 200)] ((901020 : ℚ) / 100) = some v ∧ |v| < tolerancia :=
  spec_c2 [0, -(1 / 200)] 901020 (by rfl)

/-- C6: on the series `[20, -11]` the first Newton update lands exactly
on rate -1 (`taxa = 0.1 - v/d = 0.1 - 10/(100/11) = -1`), so the next
NPV evaluation divides by zero and `calcular_tir` raises instead of
returning a value or the undefined sentinel. -/
theorem spec_c6_bug : calcular_tir [20, -11] = Except.error () := by rfl

/-- C7: `calcular_tir [-100, 60, 60, 60]` returns a numeric value
within 0.1 of 36.31. -/
theorem spec_c7 :
    tirNear (calcular_tir [-100, 60, 60, 60]) (3631 / 100) (1 / 10) = true := by rfl
